import Mathlib

/-!
Verification of the `cmdex` alias manager (src/main.go).

The program stores alias → command-template pairs in a single bolt bucket
named "commands" and executes a stored template after substituting the
positional placeholders `$1`, `$2`, … with call-time arguments.

The embedding below translates the handler bodies of `main.go`:
* the bucket is modelled as an association list with unique keys
  (`Store.get` / `Store.put` mirror `Bucket.Get` / `Bucket.Put`);
* `strings.ReplaceAll` is modelled on rune lists (`replaceAll`);
* `strings.Fields` is modelled by `fields`, splitting on runs of
  `unicode.IsSpace` characters (`isSpaceGo`);
* `runCommand` (lines 131-169) becomes a pure function into `RunEvent`,
  the observable outcome: report "alias not found", report "Empty
  command", or spawn a program with an argument vector;
* subcommand routing (`main`, lines 32-48, plus the cobra built-ins
  `help`/`completion`) becomes `dispatch`, and the process exit status
  (log.Fatal at startup, `os.Exit(1)` on a parse error from
  `rootCmd.Execute()`, lines 50-53) becomes `mainExitCode`.
-/

set_option autoImplicit false

/-- Go `strings.ReplaceAll` on rune lists, written with explicit fuel so
that it is structurally recursive (each step consumes at least one rune,
so `s.length` fuel suffices).  The scan is left-to-right and
non-overlapping: when `pat` matches at the current position the match is
consumed and replaced, otherwise one rune is copied. -/
def replaceAllFuel : Nat → List Char → List Char → List Char → List Char
  | 0, s, _, _ => s
  | fuel + 1, s, pat, rep =>
    match s with
    | [] => []
    | c :: rest =>
      if pat ≠ [] ∧ pat.isPrefixOf (c :: rest) then
        rep ++ replaceAllFuel fuel ((c :: rest).drop pat.length) pat rep
      else
        c :: replaceAllFuel fuel rest pat rep

/-- Go `strings.ReplaceAll s pat rep`.  For an empty `pat` Go inserts
`rep` at every rune boundary; that branch is unreachable in this program
because every pattern is `"$" ++ digits`. -/
def replaceAll (s pat rep : List Char) : List Char :=
  if pat = [] then rep ++ s.foldr (fun c acc => c :: (rep ++ acc)) []
  else replaceAllFuel s.length s pat rep

/-- Lift of `strings.ReplaceAll` to `String` via the rune-list view. -/
def replaceAllStr (s pat rep : String) : String :=
  ⟨replaceAll s.data pat.data rep.data⟩

/-- Go `unicode.IsSpace`: the Unicode White_Space code points. -/
def isSpaceGo (c : Char) : Bool :=
  let n := c.toNat
  n == 9 || n == 10 || n == 11 || n == 12 || n == 13 || n == 32 ||
  n == 0x85 || n == 0xA0 || n == 0x1680 ||
  n == 0x2000 || n == 0x2001 || n == 0x2002 || n == 0x2003 || n == 0x2004 ||
  n == 0x2005 || n == 0x2006 || n == 0x2007 || n == 0x2008 || n == 0x2009 ||
  n == 0x200A || n == 0x2028 || n == 0x2029 || n == 0x202F || n == 0x205F ||
  n == 0x3000

/-- Accumulator pass behind `fields`: `acc` holds the runes of the field
currently being read, in reverse. -/
def fieldsAux : List Char → List Char → List String
  | acc, [] => if acc.isEmpty then [] else [String.mk acc.reverse]
  | acc, c :: rest =>
    if isSpaceGo c then
      if acc.isEmpty then fieldsAux [] rest
      else String.mk acc.reverse :: fieldsAux [] rest
    else fieldsAux (c :: acc) rest

/-- Go `strings.Fields`: split around maximal runs of white space
(`unicode.IsSpace`), returning the non-empty fields. -/
def fields (s : String) : List String :=
  fieldsAux [] s.data

/-- The placeholder token for index `i`: `fmt.Sprintf "$%d" i`
(src/main.go line 149, called with `i+1`). -/
def placeholder (i : Nat) : String := "$" ++ toString i

/-- The substitution loop of `runCommand` (src/main.go lines 148-151):
`for i, arg := range args { command = strings.ReplaceAll(command, fmt.Sprintf("$%d", i+1), arg) }`. -/
def substitute (command : String) (args : List String) : String :=
  args.enum.foldl (fun cmd p => replaceAllStr cmd (placeholder (p.1 + 1)) p.2) command

/-- Ascending-index view of the substitution loop: starting at index `i`,
replace `$i` with the first argument, then `$(i+1)` with the second, and
so on.  `substitute cmd args = substFrom 1 cmd args` is proved below. -/
def substFrom : Nat → String → List String → String
  | _, cmd, [] => cmd
  | i, cmd, a :: as => substFrom (i + 1) (replaceAllStr cmd (placeholder i) a) as

/-- The "commands" bucket: alias keys mapped to command templates.  The
key-uniqueness invariant of the bucket is kept by `Store.put` replacing
in place.  (bolt iterates keys in byte order; the claims below only ever
assert membership, never order.) -/
abbrev Store := List (String × String)

/-- Model of `Bucket.Get`: the template stored under `a`, or `none` when absent
(bolt returns `nil` for a missing key, src/main.go lines 106 and 135). -/
def Store.get : Store → String → Option String
  | [], _ => none
  | (k, v) :: rest, a => if k = a then some v else Store.get rest a

/-- Model of `Bucket.Put`: insert or overwrite the entry for `a`
(src/main.go lines 66 and 109). -/
def Store.put : Store → String → String → Store
  | [], a, c => [(a, c)]
  | (k, v) :: rest, a, c =>
    if k = a then (a, c) :: rest else (k, v) :: Store.put rest a c

/-- Occurrence test on rune lists: `pat` matches at some position of `s`. -/
def occursIn : List Char → List Char → Bool
  | pat, [] => pat.isPrefixOf []
  | pat, c :: rest => pat.isPrefixOf (c :: rest) || occursIn pat rest

/-- Observable outcome of `runCommand` (src/main.go lines 131-169):
either the lookup fails and "alias not found" is reported, or the
substituted template tokenizes to nothing and "Empty command" is
reported, or a program is spawned with an argument vector. -/
inductive RunEvent where
  | aliasNotFound : RunEvent
  | emptyCommand : RunEvent
  | spawn : String → List String → RunEvent
deriving DecidableEq

/-- The child process spawned by an outcome, if any
(src/main.go line 161: `exec.Command(cmdParts[0], cmdParts[1:]...)`). -/
def spawned : RunEvent → Option (String × List String)
  | RunEvent.spawn prog argv => some (prog, argv)
  | _ => none

/-- The diagnostic line printed by `runCommand` for an outcome, if any
(src/main.go lines 143 and 156). -/
def runMessage : RunEvent → Option String
  | RunEvent.aliasNotFound => some "Error retrieving command: alias not found"
  | RunEvent.emptyCommand => some "Empty command"
  | RunEvent.spawn _ _ => none

/-- Embedding of `runCommand` (src/main.go lines 131-169): look the alias up, run the
substitution loop, split into fields, and either report or spawn. -/
def runCommand (store : Store) (aliasName : String) (args : List String) : RunEvent :=
  match Store.get store aliasName with
  | none => RunEvent.aliasNotFound
  | some command =>
    match fields (substitute command args) with
    | [] => RunEvent.emptyCommand
    | prog :: rest => RunEvent.spawn prog rest

/-- The `save` handler (src/main.go lines 61-67): join the command words
with single spaces (`strings.Join(args[1:], " ")`) and `Put` the result;
no prior-existence check is made. -/
def saveCommand (store : Store) (aliasName : String) (commandArgs : List String) : Store :=
  Store.put store aliasName (String.intercalate " " commandArgs)

/-- The `list` handler (src/main.go lines 81-88): `ForEach` visits every
stored pair (printed as `alias: template`). -/
def listCommand (store : Store) : List (String × String) :=
  store

/-- The `edit` handler (src/main.go lines 101-110): fail with
"alias not found" when the key is absent (the transaction is rolled back,
so the store is unchanged and no entry is created), otherwise `Put` the
new joined command.  The Bool records whether the update happened. -/
def editCommand (store : Store) (aliasName : String) (commandArgs : List String) : Store × Bool :=
  match Store.get store aliasName with
  | none => (store, false)
  | some _ => (Store.put store aliasName (String.intercalate " " commandArgs), true)

/-- What an invocation did, as routed by cobra (src/main.go lines 32-48):
usage errors come from the `MinimumNArgs` validators and make
`rootCmd.Execute()` return an error. -/
inductive CliAction where
  | helpShown : CliAction
  | usageError : CliAction
  | saved : Store → CliAction
  | listed : List (String × String) → CliAction
  | edited : Store × Bool → CliAction
  | ran : RunEvent → CliAction
deriving DecidableEq

/-- The subcommand names cobra recognises on this root command: the four
registered ones plus the built-in `help` and `completion`. -/
def reserved : List String := ["save", "list", "edit", "run", "help", "completion"]

/-- Argument-vector routing (src/main.go lines 32-48).  A first word
matching a registered subcommand goes to that handler (with its
`MinimumNArgs` check); any other non-empty argument vector falls through
to the root `Run`, which calls `runCommand args[0] args[1:]` (lines
36-42); an empty vector shows help. -/
def dispatch (store : Store) : List String → CliAction
  | [] => CliAction.helpShown
  | first :: rest =>
    if first = "save" then
      match rest with
      | a :: c :: cs => CliAction.saved (saveCommand store a (c :: cs))
      | _ => CliAction.usageError
    else if first = "list" then CliAction.listed (listCommand store)
    else if first = "edit" then
      match rest with
      | a :: c :: cs => CliAction.edited (editCommand store a (c :: cs))
      | _ => CliAction.usageError
    else if first = "run" then
      match rest with
      | a :: as => CliAction.ran (runCommand store a as)
      | [] => CliAction.usageError
    else if first = "help" ∨ first = "completion" then CliAction.helpShown
    else CliAction.ran (runCommand store first rest)

/-- Process exit status (src/main.go lines 16-30 and 50-53).  `log.Fatal`
exits with status 1 when the store cannot be opened or the bucket cannot
be created; `os.Exit(1)` runs only when `rootCmd.Execute()` returns an
error, i.e. on a usage error.  The handlers are plain `Run` functions
returning nothing, so an error printed inside one (a failed transaction,
a missing alias, a failed spawn — `handlerErrorPrinted`) cannot reach the
exit path. -/
def mainExitCode (openOk bucketOk : Bool) (handlerErrorPrinted : Bool) (act : CliAction) : Nat :=
  if openOk = false then 1
  else if bucketOk = false then 1
  else if act = CliAction.usageError then 1
  else
    let _ := handlerErrorPrinted
    0

example : replaceAllStr "echo $1 $2" "$1" "a" = "echo a $2" := by decide
example : substitute "echo $1 $2" ["a", "b"] = "echo a b" := by decide
example : fields "  echo   a  " = ["echo", "a"] := by decide
example : runCommand [("e", "echo $1 $2")] "e" ["a", "b"] = RunEvent.spawn "echo" ["a", "b"] := by decide

theorem replaceAllFuel_nil (f : Nat) (pat rep : List Char) :
    replaceAllFuel f [] pat rep = [] := by
  cases f <;> rfl

theorem replaceAllFuel_congr (pat rep : List Char) :
    ∀ f g s, s.length ≤ f → s.length ≤ g →
      replaceAllFuel f s pat rep = replaceAllFuel g s pat rep := by
  intro f
  induction f with
  | zero =>
    intro g s hf _
    have hs : s = [] := List.length_eq_zero.mp (Nat.le_zero.mp hf)
    subst hs
    rw [replaceAllFuel_nil, replaceAllFuel_nil]
  | succ n IH =>
    intro g s hf hg
    cases s with
    | nil => rw [replaceAllFuel_nil, replaceAllFuel_nil]
    | cons c rest =>
      cases g with
      | zero => simp at hg
      | succ m =>
        simp only [replaceAllFuel]
        by_cases h : pat ≠ [] ∧ pat.isPrefixOf (c :: rest)
        · simp only [if_pos h]
          have hp : 0 < pat.length := List.length_pos.mpr h.1
          simp only [List.length_cons] at hf hg
          have h1 : ((c :: rest).drop pat.length).length ≤ n := by
            simp only [List.length_drop, List.length_cons]; omega
          have h2 : ((c :: rest).drop pat.length).length ≤ m := by
            simp only [List.length_drop, List.length_cons]; omega
          rw [IH _ _ h1 h2]
        · simp only [if_neg h]
          simp only [List.length_cons] at hf hg
          rw [IH m rest (by omega) (by omega)]

theorem replaceAll_nil (pat rep : List Char) (hp : pat ≠ []) :
    replaceAll [] pat rep = [] := by
  simp [replaceAll, hp, replaceAllFuel]

theorem replaceAll_cons (c : Char) (rest pat rep : List Char) (hp : pat ≠ []) :
    replaceAll (c :: rest) pat rep =
      if pat.isPrefixOf (c :: rest) then
        rep ++ replaceAll ((c :: rest).drop pat.length) pat rep
      else c :: replaceAll rest pat rep := by
  by_cases hpre : pat.isPrefixOf (c :: rest)
  · have hp' : 0 < pat.length := List.length_pos.mpr hp
    simp only [replaceAll, if_neg hp, if_pos hpre, List.length_cons, replaceAllFuel,
      if_pos (And.intro hp hpre)]
    congr 1
    apply replaceAllFuel_congr
    · simp only [List.length_drop, List.length_cons]; omega
    · exact Nat.le_refl _
  · simp only [replaceAll, if_neg hp, if_neg hpre, List.length_cons, replaceAllFuel]
    rw [if_neg (by exact fun hand => hpre hand.2)]

theorem Store.get_put_self (s : Store) (a c : String) :
    Store.get (Store.put s a c) a = some c := by
  induction s with
  | nil => simp [Store.put, Store.get]
  | cons kv rest IH =>
    obtain ⟨k, v⟩ := kv
    by_cases hk : k = a
    · subst hk; simp [Store.put, Store.get]
    · simp [Store.put, Store.get, hk, IH]

theorem Store.mem_put_self (s : Store) (a c : String) :
    (a, c) ∈ Store.put s a c := by
  induction s with
  | nil => simp [Store.put]
  | cons kv rest IH =>
    obtain ⟨k, v⟩ := kv
    by_cases hk : k = a
    · simp [Store.put, hk]
    · simp only [Store.put, if_neg hk, List.mem_cons]
      exact Or.inr IH

theorem enumFrom_foldl_eq_substFrom :
    ∀ (args : List String) (n : Nat) (cmd : String),
      (args.enumFrom n).foldl
        (fun cm p => replaceAllStr cm (placeholder (p.1 + 1)) p.2) cmd
      = substFrom (n + 1) cmd args := by
  intro args
  induction args with
  | nil => intro n cmd; rfl
  | cons a as IH =>
    intro n cmd
    simp only [List.enumFrom, List.foldl, substFrom]
    exact IH (n + 1) _

theorem substitute_eq_substFrom (cmd : String) (args : List String) :
    substitute cmd args = substFrom 1 cmd args :=
  enumFrom_foldl_eq_substFrom args 0 cmd

theorem fieldsAux_ne_nil :
    ∀ (s acc : List Char), acc ≠ [] → fieldsAux acc s ≠ [] := by
  intro s
  induction s with
  | nil =>
    intro acc hacc
    simp only [fieldsAux]
    rw [if_neg (by simp [List.isEmpty_iff, hacc])]
    simp
  | cons c rest IH =>
    intro acc hacc
    simp only [fieldsAux]
    by_cases hc : isSpaceGo c
    · rw [if_pos hc, if_neg (by simp [List.isEmpty_iff, hacc])]
      simp
    · rw [if_neg hc]
      exact IH (c :: acc) (by simp)

theorem fieldsAux_nil_iff :
    ∀ s : List Char, fieldsAux [] s = [] ↔ s.all isSpaceGo := by
  intro s
  induction s with
  | nil => simp [fieldsAux]
  | cons c rest IH =>
    simp only [fieldsAux, List.all_cons]
    by_cases hc : isSpaceGo c
    · rw [if_pos hc, if_pos (by simp)]
      simp [hc, IH]
    · rw [if_neg hc]
      constructor
      · intro h
        exact absurd h (fieldsAux_ne_nil rest [c] (by simp))
      · intro h
        simp [hc] at h

theorem replaceAll_dollar10_head (post rep : List Char) :
    replaceAll ('$' :: '1' :: '0' :: post) ['$', '1'] rep
      = rep ++ '0' :: replaceAll post ['$', '1'] rep := by
  rw [replaceAll_cons _ _ _ _ (by simp),
    if_pos (by simp [List.isPrefixOf])]
  simp only [List.length_cons, List.length_nil, List.drop_succ_cons, List.drop_zero]
  rw [replaceAll_cons _ _ _ _ (by simp),
    if_neg (by simp [List.isPrefixOf])]

theorem replaceAll_marked :
    ∀ (n : Nat) (pre : List Char), pre.length = n → ∀ (post rep : List Char),
      replaceAll (pre ++ '$' :: '1' :: '0' :: post) ['$', '1'] rep
        = replaceAll pre ['$', '1'] rep ++ rep ++ '0' :: replaceAll post ['$', '1'] rep := by
  intro n
  induction n using Nat.strong_induction_on with
  | _ n IH =>
    intro pre hlen post rep
    rcases pre with _ | ⟨c, _ | ⟨d, pre'⟩⟩
    · simp only [List.nil_append]
      rw [replaceAll_dollar10_head, replaceAll_nil _ _ (by simp), List.nil_append]
    · simp only [List.cons_append, List.nil_append]
      rw [replaceAll_cons _ _ _ _ (by simp),
        if_neg (by simp [List.isPrefixOf]),
        replaceAll_dollar10_head,
        replaceAll_cons _ _ _ _ (by simp),
        if_neg (by simp [List.isPrefixOf]),
        replaceAll_nil _ _ (by simp)]
      simp
    · by_cases hcd : c = '$' ∧ d = '1'
      · obtain ⟨hc, hd⟩ := hcd
        subst hc; subst hd
        simp only [List.cons_append]
        rw [replaceAll_cons _ _ _ _ (by simp),
          if_pos (by simp [List.isPrefixOf])]
        rw [replaceAll_cons '$' ('1' :: pre') _ _ (by simp),
          if_pos (by simp [List.isPrefixOf])]
        simp only [List.length_cons, List.length_nil, List.drop_succ_cons, List.drop_zero]
        rw [IH pre'.length (by simp at hlen; omega) pre' rfl post rep]
        simp [List.append_assoc]
      · have hguard : ∀ t : List Char, ['$', '1'].isPrefixOf (c :: d :: t) = false := by
          intro t
          rw [Bool.eq_false_iff]
          intro habs
          simp only [List.isPrefixOf, Bool.and_eq_true, beq_iff_eq] at habs
          exact hcd ⟨habs.1.symm, habs.2.1.symm⟩
        simp only [List.cons_append]
        rw [replaceAll_cons c (d :: (pre' ++ '$' :: '1' :: '0' :: post)) _ _ (by simp),
          if_neg (by simp [hguard])]
        rw [replaceAll_cons c (d :: pre') _ _ (by simp),
          if_neg (by simp [hguard])]
        have hIH := IH (d :: pre').length (by simp at hlen ⊢; omega) (d :: pre') rfl post rep
        simp only [List.cons_append] at hIH ⊢
        rw [hIH]

theorem data_dollar : ("$" : String).data = ['$'] := rfl

theorem replaceAllStr_marked (pre post a : String) :
    replaceAllStr (pre ++ "$10" ++ post) "$1" a
      = replaceAllStr pre "$1" a ++ a ++ "0" ++ replaceAllStr post "$1" a := by
  have h10 : ("$10" : String).data = ['$', '1', '0'] := rfl
  have h1 : ("$1" : String).data = ['$', '1'] := rfl
  have h0 : ("0" : String).data = ['0'] := rfl
  apply String.ext
  simp only [replaceAllStr, String.data_append, h10, h1, h0]
  rw [show pre.data ++ ['$', '1', '0'] ++ post.data
        = pre.data ++ '$' :: '1' :: '0' :: post.data by simp]
  rw [replaceAll_marked pre.data.length pre.data rfl post.data a.data]
  simp [List.append_assoc]

theorem replaceAll_of_not_occursIn :
    ∀ (s pat rep : List Char), pat ≠ [] → occursIn pat s = false →
      replaceAll s pat rep = s := by
  intro s
  induction s with
  | nil => intro pat rep hp _; exact replaceAll_nil pat rep hp
  | cons c rest IH =>
    intro pat rep hp hocc
    simp only [occursIn, Bool.or_eq_false_iff] at hocc
    rw [replaceAll_cons _ _ _ _ hp, if_neg (by simp [hocc.1])]
    rw [IH pat rep hp hocc.2]

theorem placeholder_data_ne_nil (i : Nat) : (placeholder i).data ≠ [] := by
  simp [placeholder, String.data_append, data_dollar]

theorem substFrom_id :
    ∀ (args : List String) (k : Nat) (cmd : String),
      (∀ i, k ≤ i → i < k + args.length → occursIn (placeholder i).data cmd.data = false) →
      substFrom k cmd args = cmd := by
  intro args
  induction args with
  | nil => intro k cmd _; rfl
  | cons a as IH =>
    intro k cmd h
    have hk : occursIn (placeholder k).data cmd.data = false :=
      h k (Nat.le_refl k) (by simp only [List.length_cons]; omega)
    have hrepl : replaceAllStr cmd (placeholder k) a = cmd := by
      apply String.ext
      simp only [replaceAllStr]
      exact replaceAll_of_not_occursIn cmd.data (placeholder k).data a.data
        (placeholder_data_ne_nil k) hk
    simp only [substFrom, hrepl]
    apply IH (k + 1) cmd
    intro i h1 h2
    refine h i (by omega) ?_
    simp only [List.length_cons]
    omega

theorem placeholder_one : placeholder 1 = "$1" := by decide

theorem substitute_cons (cmd a : String) (args : List String) :
    substitute cmd (a :: args)
      = substFrom 2 (replaceAllStr cmd (placeholder 1) a) args := by
  rw [substitute_eq_substFrom]
  rfl

theorem runCommand_of_get_none (s : Store) (a : String) (args : List String)
    (h : Store.get s a = none) :
    runCommand s a args = RunEvent.aliasNotFound := by
  simp only [runCommand, h]

theorem runCommand_of_get_some (s : Store) (a : String) (args : List String)
    (tmpl : String) (h : Store.get s a = some tmpl) :
    runCommand s a args =
      match fields (substFrom 1 tmpl args) with
      | [] => RunEvent.emptyCommand
      | prog :: rest => RunEvent.spawn prog rest := by
  simp only [runCommand, h, substitute_eq_substFrom]

/-- Claim C1: `Execute` substitutes placeholders by iterating over the
arguments in ascending 1-based index order, replacing every literal
occurrence of `$i` with the i-th argument (plain text replacement); the
template `echo $1 $2` with arguments `a`, `b` spawns program `echo` with
argument vector `[a, b]`, and an argument equal to a higher-indexed
placeholder token (here `$2` passed for `$1`) is re-substituted by the
later pass. -/
theorem claim_C1 :
    (∀ (cmd : String) (args : List String),
      substitute cmd args = substFrom 1 cmd args)
    ∧ (∀ (s : Store) (a : String) (args : List String) (tmpl : String),
        Store.get s a = some tmpl →
        runCommand s a args =
          match fields (substFrom 1 tmpl args) with
          | [] => RunEvent.emptyCommand
          | prog :: rest => RunEvent.spawn prog rest)
    ∧ runCommand [("e", "echo $1 $2")] "e" ["a", "b"] = RunEvent.spawn "echo" ["a", "b"]
    ∧ substitute "$1" ["$2", "b"] = "b" :=
  ⟨substitute_eq_substFrom, runCommand_of_get_some, by decide, by decide⟩

/-- Witness for C1 at a concrete store: the lookup hypothesis is
discharged on the singleton store `g ↦ echo $1`. -/
theorem claim_C1_witness :
    runCommand [("g", "echo $1")] "g" ["hi"] =
      match fields (substFrom 1 "echo $1" ["hi"]) with
      | [] => RunEvent.emptyCommand
      | prog :: rest => RunEvent.spawn prog rest :=
  claim_C1.2.1 [("g", "echo $1")] "g" ["hi"] "echo $1" (by decide)

/-- Claim C2: running an absent alias reports "alias not found"
(printed as `Error retrieving command: alias not found`), performs no
substitution or tokenization (the outcome is the not-found report),
spawns no child process, and leaves the process exit code 0. -/
theorem claim_C2 (s : Store) (a : String) (args : List String)
    (h : Store.get s a = none) :
    runCommand s a args = RunEvent.aliasNotFound
    ∧ spawned (runCommand s a args) = none
    ∧ runMessage (runCommand s a args)
        = some "Error retrieving command: alias not found"
    ∧ mainExitCode true true true (CliAction.ran (runCommand s a args)) = 0 := by
  have he := runCommand_of_get_none s a args h
  refine ⟨he, ?_, ?_, ?_⟩ <;> rw [he] <;> rfl

/-- Witness for C2: the empty store has no alias `gone`. -/
theorem claim_C2_witness :
    runCommand [] "gone" [] = RunEvent.aliasNotFound
    ∧ spawned (runCommand [] "gone" []) = none
    ∧ runMessage (runCommand [] "gone" [])
        = some "Error retrieving command: alias not found"
    ∧ mainExitCode true true true (CliAction.ran (runCommand [] "gone" [])) = 0 :=
  claim_C2 [] "gone" [] rfl

/-- Claim C3: when the substituted template is empty or all-whitespace
(so whitespace tokenization yields zero fields), `Execute` reports
"Empty command" and stops: nothing is spawned and no further error is
raised. -/
theorem claim_C3 (s : Store) (a tmpl : String) (args : List String)
    (hget : Store.get s a = some tmpl)
    (hws : (substitute tmpl args).data.all isSpaceGo = true) :
    runCommand s a args = RunEvent.emptyCommand
    ∧ spawned (runCommand s a args) = none
    ∧ runMessage (runCommand s a args) = some "Empty command"
    ∧ fields (substitute tmpl args) = [] := by
  have hf : fields (substitute tmpl args) = [] := by
    unfold fields
    exact (fieldsAux_nil_iff _).mpr hws
  have he : runCommand s a args = RunEvent.emptyCommand := by
    simp only [runCommand, hget, hf]
  exact ⟨he, by rw [he]; rfl, by rw [he]; rfl, hf⟩

/-- Witness for C3: alias `sp` stores a blank template and is run with
no arguments. -/
theorem claim_C3_witness :
    runCommand [("sp", "   ")] "sp" [] = RunEvent.emptyCommand
    ∧ spawned (runCommand [("sp", "   ")] "sp" []) = none
    ∧ runMessage (runCommand [("sp", "   ")] "sp" []) = some "Empty command"
    ∧ fields (substitute "   " []) = [] :=
  claim_C3 [("sp", "   ")] "sp" "   " [] (by decide) (by decide)

/-- Claim C4: editing an absent alias fails with "alias not found" and
leaves the store unchanged (no entry is created); editing a present
alias overwrites its template. -/
theorem claim_C4 (s : Store) (a : String) (commandArgs : List String) :
    (Store.get s a = none → editCommand s a commandArgs = (s, false))
    ∧ (∀ tmpl, Store.get s a = some tmpl →
        editCommand s a commandArgs
          = (Store.put s a (String.intercalate " " commandArgs), true)
        ∧ Store.get (editCommand s a commandArgs).1 a
          = some (String.intercalate " " commandArgs)) := by
  constructor
  · intro h; simp only [editCommand, h]
  · intro tmpl h
    refine ⟨by simp only [editCommand, h], ?_⟩
    simp only [editCommand, h]
    exact Store.get_put_self s a _

/-- Witness for C4: edit of `nope` on the empty store fails and creates
nothing; edit of a present `g` overwrites. -/
theorem claim_C4_witness :
    editCommand [] "nope" ["echo", "hi"] = ([], false)
    ∧ editCommand [("g", "X")] "g" ["Y"] = ([("g", "Y")], true) := by
  constructor
  · exact (claim_C4 [] "nope" ["echo", "hi"]).1 rfl
  · have h := ((claim_C4 [("g", "X")] "g" ["Y"]).2 "X" (by decide)).1
    rw [h]; decide

/-- Claim C5: `save a X` then `save a Y` succeeds with no uniqueness
error (save is a total insert-or-overwrite, `Put`) and afterwards
`Get a = Y`: the last save wins. -/
theorem claim_C5 (s : Store) (a X Y : String) :
    saveCommand s a [X] = Store.put s a X
    ∧ Store.get (saveCommand (saveCommand s a [X]) a [Y]) a = some Y := by
  have hsingle : ∀ (t : Store) (Z : String), saveCommand t a [Z] = Store.put t a Z := by
    intro t Z; rfl
  refine ⟨hsingle s X, ?_⟩
  rw [hsingle, hsingle]
  exact Store.get_put_self _ a Y

/-- Claim C6: after `save a c` succeeds the listing contains the pair
`(a, c)` (membership only; no ordering is promised). -/
theorem claim_C6 (s : Store) (a c : String) :
    (a, c) ∈ listCommand (saveCommand s a [c]) := by
  show (a, c) ∈ Store.put s a (String.intercalate " " [c])
  rw [show String.intercalate " " [c] = c from rfl]
  exact Store.mem_put_self s a c

/-- Claim C7: a bare invocation whose first word is not a recognized
subcommand dispatches exactly like `run` on the same words: same
lookup, substitution, tokenization and spawn, with the same reported
errors. -/
theorem claim_C7 (s : Store) (aliasName : String) (args : List String)
    (h : aliasName ∉ reserved) :
    dispatch s (aliasName :: args) = dispatch s ("run" :: aliasName :: args) := by
  simp only [reserved, List.mem_cons, List.mem_singleton, List.not_mem_nil,
    or_false, not_or] at h
  obtain ⟨h1, h2, h3, h4, h5, h6⟩ := h
  have hR : dispatch s ("run" :: aliasName :: args)
      = CliAction.ran (runCommand s aliasName args) := rfl
  rw [hR]
  simp only [dispatch]
  rw [if_neg h1, if_neg h2, if_neg h3, if_neg h4, if_neg (not_or.mpr ⟨h5, h6⟩)]

/-- Witness for C7: the alias `g` is not a subcommand name. -/
theorem claim_C7_witness :
    dispatch [] ["g", "x"] = dispatch [] ["run", "g", "x"] :=
  claim_C7 [] "g" ["x"] (by decide)

/-- Counterexample to claim C8 as stated: when the store cannot be
opened at startup (`bolt.Open` fails, src/main.go lines 18-21,
`log.Fatal`), the process exits with status 1 even though the
command-line parser reported no usage error (the action here is plain
help, not `usageError`). -/
theorem claim_C8_counterexample :
    mainExitCode false true false CliAction.helpShown ≠ 0
    ∧ CliAction.helpShown ≠ CliAction.usageError := by
  decide

/-- Claim C8 (amended): the process exits non-zero exactly when the
store cannot be opened, the bucket cannot be created, or the top-level
command-line parser reports a usage error; errors printed inside a
command handler (storage-transaction, lookup, or spawn failures) never
change the exit code, which stays 0 for every run outcome. -/
theorem claim_C8 (openOk bucketOk handlerErrorPrinted : Bool) (act : CliAction) :
    (mainExitCode openOk bucketOk handlerErrorPrinted act ≠ 0
      ↔ (openOk = false ∨ bucketOk = false ∨ act = CliAction.usageError))
    ∧ (∀ (e e' : Bool) (ev : RunEvent),
        mainExitCode true true e (CliAction.ran ev) = 0
        ∧ mainExitCode openOk bucketOk e act = mainExitCode openOk bucketOk e' act) := by
  constructor
  · cases openOk <;> cases bucketOk <;>
      by_cases ha : act = CliAction.usageError <;> simp [mainExitCode, ha]
  · intro e e' ev
    exact ⟨by simp [mainExitCode], rfl⟩

/-- Counterexample to claim C9 as stated: the template `echo $12` run
with the single argument `a` has an unresolved placeholder `$12`
(index 12 > 1), yet it is not left untouched: the pass for `$1`
rewrites its prefix and the program spawned is `echo a2`. -/
theorem claim_C9_counterexample :
    substitute "echo $12" ["a"] = "echo a2"
    ∧ substitute "echo $12" ["a"] ≠ "echo $12"
    ∧ runCommand [("e", "echo $12")] "e" ["a"] = RunEvent.spawn "echo" ["a2"] := by
  decide

/-- Claim C9 (amended): substitution runs passes only for indices
1..len(args) and never raises an error for unresolved placeholders
(the outcome is always empty-command or a spawn once lookup succeeds);
a template in which no pass token `$1`..`$len(args)` occurs at all is
left entirely untouched, and in the spec's example `echo $1 $2` with
one argument `a` the result is program `echo` with arguments
`[a, $2]`.  (As the counterexample shows, an unresolved placeholder
that contains a lower pass token as a prefix, such as `$12` with one
argument, is rewritten rather than left untouched.) -/
theorem claim_C9 :
    (∀ (cmd : String) (args : List String),
      (∀ i ∈ List.range' 1 args.length, occursIn (placeholder i).data cmd.data = false) →
      substitute cmd args = cmd)
    ∧ runCommand [("e", "echo $1 $2")] "e" ["a"] = RunEvent.spawn "echo" ["a", "$2"]
    ∧ (∀ (s : Store) (a : String) (args : List String) (tmpl : String),
        Store.get s a = some tmpl →
        runCommand s a args = RunEvent.emptyCommand
        ∨ ∃ prog rest, runCommand s a args = RunEvent.spawn prog rest) := by
  refine ⟨?_, by decide, ?_⟩
  · intro cmd args h
    rw [substitute_eq_substFrom]
    apply substFrom_id args 1 cmd
    intro i h1 h2
    exact h i (List.mem_range'_1.mpr ⟨h1, h2⟩)
  · intro s a args tmpl hget
    rw [runCommand_of_get_some s a args tmpl hget]
    rcases hsp : fields (substFrom 1 tmpl args) with _ | ⟨p, r⟩ <;> simp [hsp]

/-- Witness for C9: `echo $5 $9` with one argument contains no `$1`
token, so it is left untouched; the lookup branch is exercised on a
concrete store. -/
theorem claim_C9_witness :
    substitute "echo $5 $9" ["a"] = "echo $5 $9"
    ∧ (runCommand [("w", "$3")] "w" [] = RunEvent.emptyCommand
        ∨ ∃ prog rest, runCommand [("w", "$3")] "w" [] = RunEvent.spawn prog rest) :=
  ⟨claim_C9.1 "echo $5 $9" ["a"] (by decide),
    claim_C9.2.2 [("w", "$3")] "w" [] "$3" (by decide)⟩

/-- Claim C10: because substitution is plain-substring replacement in
ascending index order, `$10` collides with its prefix `$1`: for every
template `pre ++ $10 ++ post` and every invocation with at least one
argument, the `$1` pass consumes the `$1` prefix of the marked `$10`,
leaving the first argument followed by a literal `0`, and the remaining
passes (indices 2 and up, including 10) run on that already-rewritten
string — the tenth argument is never substituted for the original
`$10` token.  Concretely, `echo $10` with ten arguments spawns
`echo one0`, never using the tenth argument. -/
theorem claim_C10 :
    (∀ (pre post a : String) (args : List String),
      substitute (pre ++ "$10" ++ post) (a :: args)
        = substFrom 2
            (replaceAllStr pre "$1" a ++ a ++ "0" ++ replaceAllStr post "$1" a)
            args)
    ∧ runCommand [("t", "echo $10")] "t"
        ["one", "2", "3", "4", "5", "6", "7", "8", "9", "TEN"]
      = RunEvent.spawn "echo" ["one0"] := by
  constructor
  · intro pre post a args
    rw [substitute_cons, placeholder_one, replaceAllStr_marked]
  · decide

/-- Witness for C8 at concrete inputs: a handler-reported lookup error
leaves the exit code 0. -/
theorem claim_C8_witness :
    mainExitCode true true false (CliAction.ran RunEvent.aliasNotFound) = 0 :=
  ((claim_C8 true true false (CliAction.ran RunEvent.aliasNotFound)).2
    false true RunEvent.aliasNotFound).1
